import Mathlib

/-!
Verification of the persistent identity/state storage layer of the
teleport agent: the embedded SQLite-backed key-value engine with expiry
sweeping, event-log retention and a cursor-based change-feed poller
(lib/backend/lite), the Kubernetes-secret state backend
(lib/backend/kubernetes) and the one-time bootstrap migration between
them (lib/auth process storage).

The Go code is shallowly embedded: each Go function that the claims
touch becomes an executable Lean definition over explicit state values;
machine integers become Int/Nat; fallible calls return Except or are
parametrized by an outcome knob where the failure source is external
(SQL transactions, Kubernetes API conflicts).
-/

namespace Teleport

/-- backend.Item: a key/value pair with optional expiry timestamp.
Byte sequences are modelled as lists of naturals; timestamps as Int.
The modified field carries the kv_modified column (backend.Item.ID). -/
structure Item where
  key : List Nat
  value : List Nat
  expires : Option Int
  modified : Int
deriving DecidableEq

/-- Event types recorded in the append-only events table (OpPut / OpDelete). -/
inductive EventType where
  | put
  | delete
deriving DecidableEq

/-- One row of the events table, columns
(id, type, kv_key, kv_value, kv_modified, kv_expires, created). -/
structure EventRow where
  id : Int
  type : EventType
  key : List Nat
  value : List Nat
  modified : Int
  expires : Option Int
  created : Int
deriving DecidableEq

/-- The LiteBackend state and configuration that the periodic operations
read: the kv table, the events table, and the Mirror / BufferSize /
EventsOff settings. -/
structure LiteBackend where
  kv : List Item
  events : List EventRow
  mirror : Bool
  bufferSize : Nat
  eventsOff : Bool
deriving DecidableEq

/-- Error kinds observable by callers of the storage layer, following the
repository's taxonomy (trace typed errors as checked by
lib/utils/errors.go HasTraceType, generic errors.New errors, wrapped
Kubernetes API errors, optimistic-concurrency conflicts). -/
inductive BackendErr where
  | connProblem
  | traceNotFound
  | k8sAPI
  | conflict
  | generic (msg : String)
deriving DecidableEq

/-- trace.IsNotFound: true exactly on the distinct trace-typed not-found
error, false on every other error kind (in particular on plain
errors.New errors and on wrapped Kubernetes API errors). -/
def isNotFoundErr : BackendErr → Bool
  | BackendErr.traceNotFound => true
  | _ => false

/-- Sentinel for an unset poller cursor (const notSet = -2 in lite). -/
def notSet : Int := -2

/-- SQL predicate expires <= now on an item; a NULL expires column never
matches the comparison, so items without expiry are never selected. -/
def isExpiredAt (it : Item) (now : Int) : Bool :=
  match it.expires with
  | none => false
  | some e => e ≤ now

/-- Bytewise lexicographic comparison on keys, the SQLite BLOB ordering
used by ORDER BY key. -/
def keyLeB : List Nat → List Nat → Bool
  | [], _ => true
  | _ :: _, [] => false
  | a :: as, b :: bs => if a < b then true else if b < a then false else keyLeB as bs

/-- Maximum id in the events table (SELECT id ORDER BY id DESC LIMIT 1),
none when the table is empty. -/
def maxId : List EventRow → Option Int
  | [] => none
  | e :: rest =>
    match maxId rest with
    | none => some e.id
    | some m => some (max e.id m)

/-- Next auto-increment event id assigned by the engine. -/
def nextEventId (l : LiteBackend) : Int :=
  match maxId l.events with
  | none => 1
  | some m => m + 1

/-- Modelled from the spec: lite's deleteInTransaction is not among the
sampled sources; per the spec it removes the key's row from the kv
table and, unless event machinery is disabled, appends a DELETE event
("Events are appended exactly once per mutation"), with the engine
assigning the next monotonic id. -/
def deleteInTransaction (l : LiteBackend) (key : List Nat) (now : Int) : LiteBackend :=
  { l with
    kv := l.kv.filter (fun it => decide (it.key ≠ key)),
    events :=
      if l.eventsOff then l.events
      else l.events ++
        [{ id := nextEventId l, type := EventType.delete, key := key, value := [],
           modified := 0, expires := none, created := now }] }

/-- The sweep's selection query:
SELECT key FROM kv WHERE expires <= ? ORDER BY key LIMIT ?,
with the LIMIT bound l.BufferSize. -/
def selectExpiredKeys (l : LiteBackend) (now : Int) : List (List Nat) :=
  (List.insertionSort (fun a b => keyLeB a b = true)
    ((l.kv.filter (fun it => isExpiredAt it now)).map (fun it => it.key))).take l.bufferSize

/-- removeExpiredKeys: in mirror mode return nil immediately without
touching the database; otherwise, in one transaction, select up to
BufferSize expired keys ordered by key and delete each. The txOk knob
models whether the enclosing SQL transaction succeeds (transaction
atomicity makes the failure all-or-nothing). -/
def removeExpiredKeys (l : LiteBackend) (now : Int) (txOk : Bool) :
    Except BackendErr LiteBackend :=
  if l.mirror then Except.ok l
  else if txOk then
    Except.ok ((selectExpiredKeys l now).foldl (fun acc k => deleteInTransaction acc k now) l)
  else Except.error BackendErr.connProblem

/-- backend.DefaultEventsTTL, the fixed retention window for event rows
(10 minutes, in seconds); the constant lives outside the sampled
sources, its concrete value is immaterial to the claims. -/
def DefaultEventsTTL : Int := 600

/-- removeOldEvents: DELETE FROM events WHERE created <= ? with the
cutoff now - DefaultEventsTTL; the kv table is untouched. -/
def removeOldEvents (l : LiteBackend) (now : Int) : LiteBackend :=
  { l with events := l.events.filter (fun e => decide (¬ (e.created ≤ now - DefaultEventsTTL))) }

/-- Seeding of an unset cursor: read the maximum event id and start at
max_id - 1, or at -1 when the events table is empty (sql.ErrNoRows). -/
def seedRowid (evs : List EventRow) : Int :=
  match maxId evs with
  | none => -1
  | some m => m - 1

/-- The poll batch limit: BufferSize / 2, but at least 1. -/
def pollLimit (l : LiteBackend) : Nat :=
  let lim := l.bufferSize / 2
  if lim = 0 then 1 else lim

/-- The poll query:
SELECT ... FROM events WHERE id > ? ORDER BY id LIMIT ?. -/
def queryEventsAfter (l : LiteBackend) (rowid : Int) : List EventRow :=
  (List.insertionSort (fun a b => a.id ≤ b.id)
    (l.events.filter (fun e => decide (rowid < e.id)))).take (pollLimit l)

/-- lastID as tracked by the row scan: the id of the last row of the
batch, or the given rowid when the batch is empty. -/
def lastIdOr (batch : List EventRow) (rowid : Int) : Int :=
  match batch.getLast? with
  | some e => e.id
  | none => rowid

/-- Observable outcome of one pollEvents call: the returned rowid, the
batch pushed to the fan-out buffer (empty if no push happened), whether
PushBatch was reached, whether signalWatchStart was called, and whether
an error was returned. -/
structure PollOut where
  rowid : Int
  batch : List EventRow
  pushed : Bool
  signaled : Bool
  err : Bool
deriving DecidableEq

/-- The query-and-push phase of pollEvents: inside one transaction read
events with id > rowid ordered by id, limited to pollLimit; on success
push the batch (possibly empty) and advance to the last delivered id,
otherwise return the unchanged rowid with the error. -/
def pollQueryPhase (l : LiteBackend) (rowid : Int) (signaled : Bool) (queryOk : Bool) :
    PollOut :=
  if queryOk then
    let evs := queryEventsAfter l rowid
    { rowid := lastIdOr evs rowid, batch := evs, pushed := true,
      signaled := signaled, err := false }
  else
    { rowid := rowid, batch := [], pushed := false, signaled := signaled, err := true }

/-- pollEvents: when the cursor is unset, first run the seeding
transaction (its success modelled by initOk; on failure the unchanged
rowid and the error are returned and signalWatchStart is not reached),
then call signalWatchStart, then run the query phase (its transaction
success modelled by queryOk). When the cursor is set, only the query
phase runs and no signal is emitted. -/
def pollEvents (l : LiteBackend) (rowid : Int) (initOk queryOk : Bool) : PollOut :=
  if rowid = notSet then
    if initOk then
      pollQueryPhase l (seedRowid l.events) true queryOk
    else
      { rowid := rowid, batch := [], pushed := false, signaled := false, err := true }
  else
    pollQueryPhase l rowid false queryOk

/-- The rowid threading of runPeriodicOperations across ticks, for the
error-free executions the delivery claims quantify over: each step first
appends the events produced since the previous tick, then polls, and the
returned rowid is carried to the next tick. The result lists, per tick,
the cursor after the poll and the batch delivered to the fan-out
buffer. -/
def pollSeq : LiteBackend → Int → List (List EventRow) → List (Int × List EventRow)
  | _, _, [] => []
  | l, rowid, news :: rest =>
    let l2 := { l with events := l.events ++ news }
    let r := pollEvents l2 rowid true true
    (r.rowid, r.batch) :: pollSeq l2 r.rowid rest

/-- Well-formedness of the events table guaranteed by the engine
substrate: ids are strictly increasing in insertion order and positive
(SQLite monotonic auto-increment rowids). -/
def wfLog (evs : List EventRow) : Prop :=
  List.Pairwise (fun a b => a.id < b.id) evs ∧ ∀ e ∈ evs, 0 < e.id

instance (evs : List EventRow) : Decidable (wfLog evs) := by
  unfold wfLog
  infer_instance

/-- Modelled from the spec: the embedded variant's Get is not among the
sampled sources; per the spec it is a thin pass-through to the engine's
transactional read and a missing key is reported as the distinct
trace-typed not-found condition. -/
def liteGet (l : LiteBackend) (key : List Nat) : Except BackendErr Item :=
  match l.kv.find? (fun it => decide (it.key = key)) with
  | some it => Except.ok it
  | none => Except.error BackendErr.traceNotFound

/-- The StringData mapping of the Kubernetes state secret: string keys to
string values, both the images of byte sequences. -/
abbrev SecretData := List (List Nat × List Nat)

/-- Map lookup on the secret's StringData. -/
def lookupKV (m : SecretData) (k : List Nat) : Option (List Nat) :=
  (m.find? (fun p => decide (p.1 = k))).map (fun p => p.2)

/-- Go map assignment secret.StringData[string(key)] = string(value):
the mapping afterwards binds k to v and every other key as before
(maps are unordered, so any association-list normal form is faithful). -/
def upsertKV (m : SecretData) (k v : List Nat) : SecretData :=
  (k, v) :: m.filter (fun p => decide (p.1 ≠ k))

/-- Lease: the opaque write receipt (&backend.Lease{}). -/
structure Lease where
deriving DecidableEq

/-- The getSecret-or-createSecret step at the top of each update attempt:
when the secret exists its mapping is fetched; when it does not,
createSecret applies an empty secret (labels and annotations are opaque
passthrough and are not modelled) and the empty mapping is used. Returns
the store afterwards and the fetched mapping. -/
def getOrCreateSecret : Option SecretData → Option SecretData × SecretData
  | some d => (some d, d)
  | none => (some [], [])

/-- In-memory mutation of the fetched mapping: each item's key is bound
to its value, in order. -/
def upsertItems (d : SecretData) (items : List Item) : SecretData :=
  items.foldl (fun m it => upsertKV m it.key it.value) d

/-- The retry loop of updateSecretContent (for i := 0; i < 3; i++):
each attempt fetches (or creates) the secret, applies the items to the
fetched mapping in memory, and calls updateSecret presenting the version
it read; conflictAt i tells whether attempt i's apply is rejected with a
stale version (a conflicting writer's own content is outside this
process's view and is not modelled). On the first clean apply the loop
stops with the new mapping stored; when every attempt conflicts the
store is left as fetched and false is returned. -/
def updateSecretLoop (conflictAt : Nat → Bool) (items : List Item) :
    Nat → Nat → Option SecretData → Option SecretData × Bool
  | 0, _, ks => (ks, false)
  | fuel + 1, i, ks =>
    let p := getOrCreateSecret ks
    let d2 := upsertItems p.2 items
    if conflictAt i then updateSecretLoop conflictAt items fuel (i + 1) p.1
    else (some d2, true)

/-- updateSecretContent: run the retry loop with 3 attempts in total;
return a lease when some attempt applied cleanly, otherwise surface the
conflict failure to the caller. -/
def updateSecretContent (conflictAt : Nat → Bool) (ks : Option SecretData)
    (items : List Item) : Option SecretData × Except BackendErr Lease :=
  match updateSecretLoop conflictAt items 3 0 ks with
  | (ks2, true) => (ks2, Except.ok Lease.mk)
  | (ks2, false) => (ks2, Except.error BackendErr.conflict)

/-- readSecretData: fetch the secret (a missing secret surfaces the
wrapped Kubernetes API error); a key that is absent from StringData, or
bound to an empty value, yields errors.New("key not found") - a plain
generic error, not a trace-typed one. -/
def readSecretData (ks : Option SecretData) (key : List Nat) : Except BackendErr Item :=
  match ks with
  | none => Except.error BackendErr.k8sAPI
  | some d =>
    match lookupKV d key with
    | none => Except.error (BackendErr.generic "key not found")
    | some v =>
      if v.length = 0 then Except.error (BackendErr.generic "key not found")
      else Except.ok { key := key, value := v, expires := none, modified := 0 }

/-- Backend.Get on the Kubernetes variant: readSecretData under the
process-wide mutex (serialization is implicit in the sequential model). -/
def kubeGet (ks : Option SecretData) (key : List Nat) : Except BackendErr Item :=
  readSecretData ks key

/-- Backend.Create on the Kubernetes variant: updateSecretContent on the
single item. -/
def kubeCreate (conflictAt : Nat → Bool) (ks : Option SecretData) (i : Item) :
    Option SecretData × Except BackendErr Lease :=
  updateSecretContent conflictAt ks [i]

/-- Backend.Put on the Kubernetes variant: updateSecretContent on the
single item. -/
def kubePut (conflictAt : Nat → Bool) (ks : Option SecretData) (i : Item) :
    Option SecretData × Except BackendErr Lease :=
  updateSecretContent conflictAt ks [i]

/-- Backend.PutItems: upsert several items at once, surfacing only the
error. -/
def kubePutItems (conflictAt : Nat → Bool) (ks : Option SecretData) (items : List Item) :
    Option SecretData × Option BackendErr :=
  match updateSecretContent conflictAt ks items with
  | (ks2, Except.ok _) => (ks2, none)
  | (ks2, Except.error e) => (ks2, some e)

/-- Backend.Exists: whether getSecret succeeds, i.e. the secret exists. -/
def kubeExists (ks : Option SecretData) : Bool :=
  ks.isSome

/-- Modelled from the spec: backend.Key / backend.RangeEnd and
lite.GetRange are not among the sampled sources; per the spec the
migration copies "two known key-prefix ranges", so the range
[Key(p), RangeEnd(Key(p))) with no limit is the set of items whose key
extends p. -/
def rangeWithPfx (kv : List Item) (p : List Nat) : List Item :=
  kv.filter (fun it => p.isPrefixOf it.key)

/-- copyDataFromLocalIntoKube: read the prefix range from the embedded
engine and Put each item into the Kubernetes secret, swallowing per-item
errors; at bootstrap no concurrent writer exists, so no apply
conflicts. -/
def copyDataFromLocalIntoKube (ks : Option SecretData) (litekv : List Item)
    (p : List Nat) : Option SecretData :=
  (rangeWithPfx litekv p).foldl (fun s it => (kubePut (fun _ => false) s it).1) ks

/-- compatibilityLayer: copy the ids range and then the states range. -/
def compatibilityLayer (ks : Option SecretData) (litekv : List Item)
    (p1 p2 : List Nat) : Option SecretData :=
  copyDataFromLocalIntoKube (copyDataFromLocalIntoKube ks litekv p1) litekv p2

/-- The state-storage selection and migration step of NewProcessStorage:
when the secret already exists nothing is copied; when it does not, the
compatibility layer copies the two prefix ranges from the embedded
engine into it. The returned value is the external resource's state
afterwards. -/
def newProcessStorageState (ks : Option SecretData) (litekv : List Item)
    (p1 p2 : List Nat) : Option SecretData :=
  if kubeExists ks then ks else compatibilityLayer ks litekv p1 p2

/-- Lookup through the optional external resource: none when the
resource does not exist. -/
def ksLookup : Option SecretData → List Nat → Option (List Nat)
  | none, _ => none
  | some d, k => lookupKV d k

/-- C7: when the engine is configured in mirror mode, an invocation of
the expiration sweep is a no-op: it returns without error and leaves the
kv table and the event log entirely unchanged, for every state, every
clock time and every transaction outcome, regardless of how many items
are expired. -/
theorem mirror_sweep_noop (l : LiteBackend) (now : Int) (txOk : Bool)
    (h : l.mirror = true) : removeExpiredKeys l now txOk = Except.ok l := by
  simp [removeExpiredKeys, h]

theorem mirror_sweep_noop_witness :
    removeExpiredKeys
        { kv := [{ key := [0], value := [1], expires := some 0, modified := 0 }],
          events := [], mirror := true, bufferSize := 1, eventsOff := false } 100 true
      = Except.ok
        { kv := [{ key := [0], value := [1], expires := some 0, modified := 0 }],
          events := [], mirror := true, bufferSize := 1, eventsOff := false } :=
  mirror_sweep_noop _ 100 true rfl

/-- C9 counterexample: a row created exactly at now - DefaultEventsTTL is
not older than the retention window, yet one retention sweep deletes it:
the code removes rows with created <= cutoff, not created < cutoff. -/
theorem retention_boundary_cex :
    (removeOldEvents
        { kv := [], events := [⟨1, EventType.put, [], [], 0, none, 400⟩],
          mirror := false, bufferSize := 10, eventsOff := false } 1000).events = []
    ∧ ¬ ((400 : Int) < 1000 - DefaultEventsTTL) := by
  constructor
  · rfl
  · decide

/-- C9 amended: one invocation of the retention sweep deletes from the
event table exactly the rows whose creation time is at or before
now minus the default events TTL, and leaves every row of the kv table
unchanged. -/
theorem retention_sweep_exact (l : LiteBackend) (now : Int) :
    (∀ e, e ∈ (removeOldEvents l now).events
      ↔ e ∈ l.events ∧ ¬ (e.created ≤ now - DefaultEventsTTL))
    ∧ (removeOldEvents l now).kv = l.kv := by
  constructor
  · intro e
    simp [removeOldEvents, List.mem_filter]
  · rfl

/-- C8: signalWatchStart is emitted exactly on the polls whose cursor was
unset and whose cursor-initializing transaction completed without error;
in particular it is never reached when that transaction fails, and never
emitted on a poll whose cursor was already set. -/
theorem watch_signal_after_seed (l : LiteBackend) (rowid : Int) (initOk queryOk : Bool) :
    (pollEvents l rowid initOk queryOk).signaled = true
      ↔ (rowid = notSet ∧ initOk = true) := by
  by_cases h : rowid = notSet <;> cases initOk <;> cases queryOk <;>
    simp [pollEvents, pollQueryPhase, h]

/-- C10: on the Kubernetes variant Create and Put are the same upsert
operation; in particular Create on an existing key succeeds with a lease
and overwrites the previous value rather than failing with an
already-exists condition. -/
theorem create_equals_put :
    (∀ (conflictAt : Nat → Bool) (ks : Option SecretData) (i : Item),
        kubeCreate conflictAt ks i = kubePut conflictAt ks i)
    ∧ (∀ (d : SecretData) (i : Item),
        kubeCreate (fun _ => false) (some d) i
          = (some (upsertKV d i.key i.value), Except.ok Lease.mk))
    ∧ (∀ (d : SecretData) (k v : List Nat), lookupKV (upsertKV d k v) k = some v) := by
  refine ⟨fun _ _ _ => rfl, fun d i => rfl, fun d k v => ?_⟩
  simp [lookupKV, upsertKV]

/-- C5: the whole fetch-mutate-apply cycle is retried on a stale-version
rejection, up to 3 attempts in total: the call returns a lease exactly
when some of the first three attempts applies cleanly, fails otherwise,
and its outcome depends only on the first three attempts. -/
theorem conflict_retry_bound (conflictAt : Nat → Bool) (ks : Option SecretData)
    (items : List Item) :
    ((updateSecretContent conflictAt ks items).2 = Except.ok Lease.mk
       ↔ (conflictAt 0 = false ∨ conflictAt 1 = false ∨ conflictAt 2 = false))
    ∧ (∀ g : Nat → Bool, (∀ j, j < 3 → conflictAt j = g j) →
        updateSecretContent conflictAt ks items = updateSecretContent g ks items) := by
  constructor
  · cases h0 : conflictAt 0 <;> cases h1 : conflictAt 1 <;> cases h2 : conflictAt 2 <;>
      simp [updateSecretContent, updateSecretLoop, h0, h1, h2]
  · intro g hg
    have e0 := hg 0 (by omega)
    have e1 := hg 1 (by omega)
    have e2 := hg 2 (by omega)
    simp [updateSecretContent, updateSecretLoop, ← e0, ← e1, ← e2]

theorem conflict_retry_bound_witness :
    updateSecretContent (fun j => decide (3 ≤ j)) none []
      = updateSecretContent (fun _ => false) none [] :=
  (conflict_retry_bound (fun j => decide (3 ≤ j)) none []).2 (fun _ => false) (by decide)

/-- C4 counterexample: on the Kubernetes variant, Get on an absent key
returns errors.New("key not found"), a plain generic error on which the
not-found classifier is false, so a caller cannot recognize the
key-absent case by a distinct not-found error kind. -/
theorem kube_get_absent_generic_cex :
    kubeGet (some [([0], [1])]) [1] = Except.error (BackendErr.generic "key not found")
    ∧ isNotFoundErr (BackendErr.generic "key not found") = false :=
  ⟨rfl, rfl⟩

/-- C4 amended: the embedded variant reports an absent key with the
distinct trace-typed not-found condition, but the Kubernetes variant
reports it with a generic error (message "key not found"), which is not
distinguishable as not-found by error kind. -/
theorem get_absent_error_kinds :
    (∀ (l : LiteBackend) (key : List Nat),
        l.kv.find? (fun it => decide (it.key = key)) = none →
        liteGet l key = Except.error BackendErr.traceNotFound
          ∧ isNotFoundErr BackendErr.traceNotFound = true)
    ∧ (∀ (d : SecretData) (key : List Nat), lookupKV d key = none →
        kubeGet (some d) key = Except.error (BackendErr.generic "key not found")
          ∧ isNotFoundErr (BackendErr.generic "key not found") = false) := by
  constructor
  · intro l key h
    exact ⟨by simp [liteGet, h], rfl⟩
  · intro d key h
    exact ⟨by simp [kubeGet, readSecretData, h], rfl⟩

/-- The kv table left by folding per-key deletions is exactly the set of
rows whose key is not among the deleted keys. -/
theorem foldl_delete_kv (ks : List (List Nat)) (l : LiteBackend) (now : Int) :
    ((ks.foldl (fun acc k => deleteInTransaction acc k now) l).kv)
      = l.kv.filter (fun it => decide (it.key ∉ ks)) := by
  induction ks generalizing l with
  | nil => simp
  | cons k ks ih =>
    simp only [List.foldl_cons]
    rw [ih]
    show ((l.kv.filter (fun it => decide (it.key ≠ k))).filter
        (fun it => decide (it.key ∉ ks))) = _
    rw [List.filter_filter]
    apply List.filter_congr
    intro it _
    simp [List.mem_cons, not_or, Bool.and_comm]

/-- C3 counterexample: a non-mirror engine holding two expired items with
a batch size of 1: one sweep invocation deletes only the first key in
key order, and an item whose expires is before now is still present in
the kv table afterwards. -/
theorem sweep_batch_limit_cex :
    removeExpiredKeys
        { kv := [{ key := [0], value := [1], expires := some 5, modified := 0 },
                 { key := [1], value := [1], expires := some 5, modified := 0 }],
          events := [], mirror := false, bufferSize := 1, eventsOff := true } 10 true
      = Except.ok
        { kv := [{ key := [1], value := [1], expires := some 5, modified := 0 }],
          events := [], mirror := false, bufferSize := 1, eventsOff := true }
    ∧ isExpiredAt { key := [1], value := [1], expires := some 5, modified := 0 } 10 = true :=
  ⟨rfl, rfl⟩

/-- C3 amended: for every non-mirror engine state, one sweep invocation
deletes, inside one enclosing transaction, exactly the rows whose key is
among the expired keys selected ordered by key and limited to the batch
size; consequently, whenever the number of expired items is at most the
batch size, every item with expires at or before now is absent from the
kv table afterwards. -/
theorem sweep_clears_expired_within_batch (l : LiteBackend) (now : Int)
    (hm : l.mirror = false) :
    ∃ l2, removeExpiredKeys l now true = Except.ok l2
      ∧ l2.kv = l.kv.filter (fun it => decide (it.key ∉ selectExpiredKeys l now))
      ∧ ((l.kv.filter (fun it => isExpiredAt it now)).length ≤ l.bufferSize →
          ∀ it ∈ l2.kv, isExpiredAt it now = false) := by
  refine ⟨(selectExpiredKeys l now).foldl (fun acc k => deleteInTransaction acc k now) l,
    by simp [removeExpiredKeys, hm], foldl_delete_kv _ l now, ?_⟩
  intro hb it hit
  rw [foldl_delete_kv, List.mem_filter] at hit
  obtain ⟨hmem, hkey⟩ := hit
  by_contra hexp
  rw [Bool.not_eq_false] at hexp
  have hinKL : it.key ∈ (l.kv.filter (fun it => isExpiredAt it now)).map (fun it => it.key) :=
    List.mem_map_of_mem _ (List.mem_filter.2 ⟨hmem, hexp⟩)
  have hsel : selectExpiredKeys l now
      = List.insertionSort (fun a b => keyLeB a b = true)
          ((l.kv.filter (fun it => isExpiredAt it now)).map (fun it => it.key)) := by
    unfold selectExpiredKeys
    apply List.take_of_length_le
    rw [List.length_insertionSort, List.length_map]
    exact hb
  have hks : it.key ∈ selectExpiredKeys l now := by
    rw [hsel]
    exact ((List.perm_insertionSort _ _).mem_iff).2 hinKL
  simp only [decide_eq_true_eq] at hkey
  exact hkey hks

/-- A one-item non-mirror backend used to witness the amended sweep
claim. -/
def sweepWitnessBackend : LiteBackend :=
  { kv := [{ key := [2], value := [1], expires := some 5, modified := 0 }],
    events := [], mirror := false, bufferSize := 3, eventsOff := true }

theorem sweep_clears_expired_within_batch_witness :
    ∃ l2, removeExpiredKeys sweepWitnessBackend 10 true = Except.ok l2
      ∧ l2.kv = sweepWitnessBackend.kv.filter
          (fun it => decide (it.key ∉ selectExpiredKeys sweepWitnessBackend 10))
      ∧ ((sweepWitnessBackend.kv.filter (fun it => isExpiredAt it 10)).length
            ≤ sweepWitnessBackend.bufferSize →
          ∀ it ∈ l2.kv, isExpiredAt it 10 = false) :=
  sweep_clears_expired_within_batch sweepWitnessBackend 10 rfl

/-- The event log the seed-behavior claim starts from: ids 1 through 5. -/
def seedLog : List EventRow :=
  [⟨1, EventType.put, [], [], 0, none, 0⟩, ⟨2, EventType.put, [], [], 0, none, 0⟩,
   ⟨3, EventType.put, [], [], 0, none, 0⟩, ⟨4, EventType.put, [], [], 0, none, 0⟩,
   ⟨5, EventType.put, [], [], 0, none, 0⟩]

/-- A non-mirror backend holding the seed log, with an arbitrary
configured buffer size. -/
def seedBackend (bs : Nat) : LiteBackend :=
  { kv := [], events := seedLog, mirror := false, bufferSize := bs, eventsOff := false }

theorem get_absent_error_kinds_witness :
    (liteGet { kv := [], events := [], mirror := false, bufferSize := 1, eventsOff := false } [0]
        = Except.error BackendErr.traceNotFound
      ∧ isNotFoundErr BackendErr.traceNotFound = true)
    ∧ (kubeGet (some []) [0] = Except.error (BackendErr.generic "key not found")
      ∧ isNotFoundErr (BackendErr.generic "key not found") = false) :=
  ⟨get_absent_error_kinds.1
      { kv := [], events := [], mirror := false, bufferSize := 1, eventsOff := false } [0] rfl,
   get_absent_error_kinds.2 [] [0] rfl⟩

/-- C2: on the seed log with ids 1 through 5 and an unset cursor, for
every configured buffer size: the first poll seeds the cursor to 4,
signals watch start, delivers exactly the event with id 5 and returns
cursor 5; a subsequent poll with no new events pushes an empty batch and
leaves the cursor at 5. -/
theorem poller_seed_behavior (bs : Nat) :
    seedRowid (seedBackend bs).events = 4
    ∧ (pollEvents (seedBackend bs) notSet true true).signaled = true
    ∧ (pollEvents (seedBackend bs) notSet true true).batch
        = [⟨5, EventType.put, [], [], 0, none, 0⟩]
    ∧ (pollEvents (seedBackend bs) notSet true true).rowid = 5
    ∧ (pollEvents (seedBackend bs) notSet true true).pushed = true
    ∧ (pollEvents (seedBackend bs) 5 true true).batch = []
    ∧ (pollEvents (seedBackend bs) 5 true true).pushed = true
    ∧ (pollEvents (seedBackend bs) 5 true true).rowid = 5 := by
  have hpl : 0 < pollLimit (seedBackend bs) := by
    unfold pollLimit
    dsimp only
    split
    · omega
    · exact Nat.pos_of_ne_zero (by assumption)
  have hq1 : queryEventsAfter (seedBackend bs) 4 = [⟨5, EventType.put, [], [], 0, none, 0⟩] := by
    unfold queryEventsAfter
    have hfil : (seedBackend bs).events.filter (fun e => decide ((4 : Int) < e.id))
        = [⟨5, EventType.put, [], [], 0, none, 0⟩] := rfl
    rw [hfil]
    have hsort : List.insertionSort (fun a b : EventRow => a.id ≤ b.id)
        [⟨5, EventType.put, [], [], 0, none, 0⟩]
        = [⟨5, EventType.put, [], [], 0, none, 0⟩] := rfl
    rw [hsort]
    obtain ⟨n, hn⟩ : ∃ n, pollLimit (seedBackend bs) = n + 1 :=
      ⟨pollLimit (seedBackend bs) - 1, (Nat.succ_pred_eq_of_pos hpl).symm⟩
    rw [hn]
    simp
  have hq2 : queryEventsAfter (seedBackend bs) 5 = [] := by
    unfold queryEventsAfter
    have hfil : (seedBackend bs).events.filter (fun e => decide ((5 : Int) < e.id))
        = ([] : List EventRow) := rfl
    rw [hfil]
    simp
  have hseed : seedRowid (seedBackend bs).events = 4 := rfl
  have h5 : ((5 : Int) = notSet) = False := by
    simp [notSet]
  refine ⟨rfl, ?_, ?_, ?_, ?_, ?_, ?_, ?_⟩ <;>
    simp [pollEvents, pollQueryPhase, hseed, hq1, hq2, h5, lastIdOr]

theorem find?_filter_ne (d : SecretData) (k0 k : List Nat) (h : k ≠ k0) :
    (d.filter (fun p => decide (p.1 ≠ k0))).find? (fun p => decide (p.1 = k))
      = d.find? (fun p => decide (p.1 = k)) := by
  induction d with
  | nil => rfl
  | cons p d ih =>
    rw [List.filter_cons]
    by_cases hp : p.1 = k0
    · rw [if_neg (by simp [hp])]
      rw [List.find?_cons_of_neg _ (by simp [hp]; exact fun hk => h hk.symm)]
      exact ih
    · rw [if_pos (by simp [hp])]
      by_cases hpk : p.1 = k
      · rw [List.find?_cons_of_pos _ (by simp [hpk]),
          List.find?_cons_of_pos _ (by simp [hpk])]
      · rw [List.find?_cons_of_neg _ (by simp [hpk]),
          List.find?_cons_of_neg _ (by simp [hpk])]
        exact ih

theorem lookup_upsertKV (d : SecretData) (k0 v k : List Nat) :
    lookupKV (upsertKV d k0 v) k = if k = k0 then some v else lookupKV d k := by
  by_cases h : k = k0
  · subst h
    unfold lookupKV upsertKV
    rw [List.find?_cons_of_pos _ (by simp), if_pos rfl]
    rfl
  · unfold lookupKV upsertKV
    rw [List.find?_cons_of_neg _ (by simp; exact fun hk => h hk.symm),
      find?_filter_ne d k0 k h, if_neg h]

theorem lookup_upsertItems (its : List Item) (d : SecretData) (k : List Nat) :
    lookupKV (upsertItems d its) k
      = match its.reverse.find? (fun it => decide (it.key = k)) with
        | some it => some it.value
        | none => lookupKV d k := by
  induction its generalizing d with
  | nil => rfl
  | cons a as ih =>
    have hstep : upsertItems d (a :: as) = upsertItems (upsertKV d a.key a.value) as := rfl
    rw [hstep, ih, List.reverse_cons, List.find?_append]
    cases h : as.reverse.find? (fun it => decide (it.key = k)) with
    | some it => rfl
    | none =>
      rw [lookup_upsertKV]
      by_cases hak : a.key = k
      · rw [if_pos hak.symm]
        have hfa : List.find? (fun it => decide (it.key = k)) [a] = some a :=
          List.find?_cons_of_pos _ (by simp [hak])
        rw [hfa]
        rfl
      · rw [if_neg (fun hk => hak hk.symm)]
        have hfa : List.find? (fun it => decide (it.key = k)) [a] = none := by
          rw [List.find?_cons_of_neg _ (by simp [hak])]
          rfl
        rw [hfa]
        rfl

/-- Folding Put over items starting from an existing secret applies all
the upserts in order. -/
theorem foldPut_some (its : List Item) (d : SecretData) :
    its.foldl (fun s it => (kubePut (fun _ => false) s it).1) (some d)
      = some (upsertItems d its) := by
  induction its generalizing d with
  | nil => rfl
  | cons a as ih =>
    simp only [List.foldl_cons]
    have hstep : (kubePut (fun _ => false) (some d) a).1 = some (upsertKV d a.key a.value) := rfl
    rw [hstep, ih]
    rfl

/-- Folding Put over a non-empty item list starting from a missing
secret first creates the empty secret and then applies all upserts. -/
theorem foldPut_none_cons (a : Item) (as : List Item) :
    (a :: as).foldl (fun s it => (kubePut (fun _ => false) s it).1) none
      = some (upsertItems [] (a :: as)) := by
  simp only [List.foldl_cons]
  have hstep : (kubePut (fun _ => false) none a).1 = some (upsertKV [] a.key a.value) := rfl
  rw [hstep, foldPut_some]
  rfl

/-- The external resource after the bootstrap migration from a missing
secret: nonexistent when both prefix ranges are empty, otherwise the
upserts of the concatenated ranges applied to the empty mapping, so that
a lookup finds the last copied binding of the key. -/
theorem migrate_lookup (litekv : List Item) (p1 p2 : List Nat) (k : List Nat) :
    ksLookup (newProcessStorageState none litekv p1 p2) k
      = match (rangeWithPfx litekv p1 ++ rangeWithPfx litekv p2).reverse.find?
            (fun it => decide (it.key = k)) with
        | some it => some it.value
        | none => none := by
  have hnps : newProcessStorageState none litekv p1 p2
      = compatibilityLayer none litekv p1 p2 := rfl
  rw [hnps]
  unfold compatibilityLayer copyDataFromLocalIntoKube
  cases h1 : rangeWithPfx litekv p1 with
  | nil =>
    rw [List.foldl_nil, List.nil_append]
    cases h2 : rangeWithPfx litekv p2 with
    | nil => rfl
    | cons b bs =>
      rw [foldPut_none_cons]
      show lookupKV (upsertItems [] (b :: bs)) k = _
      rw [lookup_upsertItems]
      cases hf : (b :: bs).reverse.find? (fun it => decide (it.key = k)) <;> rfl
  | cons a as =>
    rw [foldPut_none_cons, foldPut_some]
    show lookupKV (upsertItems (upsertItems [] (a :: as)) (rangeWithPfx litekv p2)) k = _
    have happ : upsertItems (upsertItems [] (a :: as)) (rangeWithPfx litekv p2)
        = upsertItems [] ((a :: as) ++ rangeWithPfx litekv p2) := by
      unfold upsertItems
      rw [List.foldl_append]
    rw [happ, lookup_upsertItems]
    cases hf : ((a :: as) ++ rangeWithPfx litekv p2).reverse.find?
        (fun it => decide (it.key = k)) <;> rfl

/-- C6 counterexample: an embedded engine holding one item under the
first watched prefix whose value is empty. The bootstrap migration puts
it into the external resource's mapping, but Get on the External variant
reports it as "key not found" because readSecretData treats an empty
value as absent — so not every copied item is subsequently readable via
Get. -/
theorem migration_empty_value_cex :
    newProcessStorageState none [{ key := [3], value := [], expires := none, modified := 0 }]
        [3] [4] = some [([3], [])]
    ∧ kubeGet (some [([3], [])]) [3] = Except.error (BackendErr.generic "key not found") :=
  ⟨rfl, rfl⟩

/-- C6 amended: for an embedded engine whose keys are unique and an
external resource that does not yet exist, the bootstrap migration fills
the external resource's mapping with exactly the items whose key falls
under one of the two watched prefixes, and every such item with a
non-empty value is subsequently readable via Get on the External
variant; when the external resource already exists, no copy is
performed. -/
theorem migration_completeness (litekv : List Item) (p1 p2 : List Nat)
    (hnd : (litekv.map (fun it => it.key)).Nodup) :
    (∀ k v, ksLookup (newProcessStorageState none litekv p1 p2) k = some v
       ↔ ∃ it, it ∈ litekv
           ∧ (p1.isPrefixOf it.key = true ∨ p2.isPrefixOf it.key = true)
           ∧ it.key = k ∧ it.value = v)
    ∧ (∀ it, it ∈ litekv →
        (p1.isPrefixOf it.key = true ∨ p2.isPrefixOf it.key = true) →
        it.value ≠ [] →
        kubeGet (newProcessStorageState none litekv p1 p2) it.key
          = Except.ok { key := it.key, value := it.value, expires := none, modified := 0 })
    ∧ (∀ (ks2 : Option SecretData) (kv2 : List Item) (q1 q2 : List Nat),
        kubeExists ks2 = true → newProcessStorageState ks2 kv2 q1 q2 = ks2) := by
  have hmemC : ∀ it : Item,
      it ∈ rangeWithPfx litekv p1 ++ rangeWithPfx litekv p2
        ↔ it ∈ litekv ∧ (p1.isPrefixOf it.key = true ∨ p2.isPrefixOf it.key = true) := by
    intro it
    constructor
    · intro h
      rcases List.mem_append.1 h with h | h
      · rcases List.mem_filter.1 h with ⟨hm, hp⟩
        exact ⟨hm, Or.inl hp⟩
      · rcases List.mem_filter.1 h with ⟨hm, hp⟩
        exact ⟨hm, Or.inr hp⟩
    · rintro ⟨hm, hp | hp⟩
      · exact List.mem_append_left _ (List.mem_filter.2 ⟨hm, hp⟩)
      · exact List.mem_append_right _ (List.mem_filter.2 ⟨hm, hp⟩)
  have hlk : ∀ k v, ksLookup (newProcessStorageState none litekv p1 p2) k = some v
       ↔ ∃ it, it ∈ litekv
           ∧ (p1.isPrefixOf it.key = true ∨ p2.isPrefixOf it.key = true)
           ∧ it.key = k ∧ it.value = v := by
    intro k v
    rw [migrate_lookup]
    cases hf : (rangeWithPfx litekv p1 ++ rangeWithPfx litekv p2).reverse.find?
        (fun it => decide (it.key = k)) with
    | none =>
      simp only []
      constructor
      · intro h
        exact absurd h (by simp)
      · rintro ⟨it, hm, hp, hk, hv⟩
        have hin : it ∈ (rangeWithPfx litekv p1 ++ rangeWithPfx litekv p2).reverse :=
          List.mem_reverse.2 ((hmemC it).2 ⟨hm, hp⟩)
        have := List.find?_eq_none.1 hf it hin
        simp [hk] at this
    | some it2 =>
      simp only []
      have hin2 : it2 ∈ litekv ∧ (p1.isPrefixOf it2.key = true ∨ p2.isPrefixOf it2.key = true) :=
        (hmemC it2).1 (List.mem_reverse.1 (List.mem_of_find?_eq_some hf))
      have hk2 : it2.key = k := by
        have := List.find?_some hf
        simpa using this
      constructor
      · intro h
        exact ⟨it2, hin2.1, hin2.2, hk2, by simpa using h⟩
      · rintro ⟨it, hm, hp, hk, hv⟩
        have : it = it2 := List.inj_on_of_nodup_map hnd hm hin2.1 (hk.trans hk2.symm)
        rw [← this, hv]
  refine ⟨hlk, ?_, ?_⟩
  · intro it hm hp hvne
    have hsome := (hlk it.key it.value).2 ⟨it, hm, hp, rfl, rfl⟩
    cases hN : newProcessStorageState none litekv p1 p2 with
    | none =>
      rw [hN] at hsome
      exact absurd hsome (by simp [ksLookup])
    | some d =>
      rw [hN] at hsome
      have hlkd : lookupKV d it.key = some it.value := hsome
      have hlen : ¬ (it.value.length = 0) := fun h => hvne (List.length_eq_zero.1 h)
      simp [kubeGet, readSecretData, hlkd, hlen]
  · intro ks2 kv2 q1 q2 hex
    simp [newProcessStorageState, hex]

theorem migration_completeness_witness :
    ksLookup (newProcessStorageState none
        [{ key := [5, 0], value := [9], expires := none, modified := 0 }] [5] [6]) [5, 0]
      = some [9]
    ∧ kubeGet (newProcessStorageState none
        [{ key := [5, 0], value := [9], expires := none, modified := 0 }] [5] [6]) [5, 0]
      = Except.ok { key := [5, 0], value := [9], expires := none, modified := 0 } := by
  have h := migration_completeness
    [{ key := [5, 0], value := [9], expires := none, modified := 0 }] [5] [6] (by decide)
  refine ⟨(h.1 [5, 0] [9]).2
      ⟨{ key := [5, 0], value := [9], expires := none, modified := 0 }, by decide,
        Or.inl (by decide), rfl, rfl⟩, ?_⟩
  exact h.2.1 { key := [5, 0], value := [9], expires := none, modified := 0 }
    (by decide) (Or.inl (by decide)) (by decide)

theorem mem_queryEventsAfter (l : LiteBackend) (c : Int) (e : EventRow)
    (h : e ∈ queryEventsAfter l c) : e ∈ l.events ∧ c < e.id := by
  unfold queryEventsAfter at h
  have h2 := List.mem_of_mem_take h
  have h3 := ((List.perm_insertionSort _ _).mem_iff).1 h2
  rcases List.mem_filter.1 h3 with ⟨hm, hc⟩
  exact ⟨hm, by simpa using hc⟩

/-- On a log whose ids already increase in insertion order, the poll
query's ORDER BY id is the identity, so the query is filter-then-take. -/
theorem query_eq_of_sorted (l : LiteBackend) (c : Int)
    (hwf : List.Pairwise (fun a b => a.id < b.id) l.events) :
    queryEventsAfter l c
      = (l.events.filter (fun e => decide (c < e.id))).take (pollLimit l) := by
  unfold queryEventsAfter
  congr 1
  apply List.Sorted.insertionSort_eq
  exact (hwf.filter _).imp (fun h => le_of_lt h)

theorem pairwise_queryEventsAfter (l : LiteBackend) (c : Int)
    (hwf : List.Pairwise (fun a b => a.id < b.id) l.events) :
    List.Pairwise (fun a b => a.id < b.id) (queryEventsAfter l c) := by
  rw [query_eq_of_sorted l c hwf]
  exact List.Pairwise.sublist (List.take_sublist _ _) (hwf.filter _)

theorem le_lastIdOr (xs : List EventRow) (c : Int)
    (hp : List.Pairwise (fun a b => a.id < b.id) xs) :
    ∀ e ∈ xs, e.id ≤ lastIdOr xs c := by
  induction xs with
  | nil => intro e he; simp at he
  | cons a t ih =>
    intro e he
    cases t with
    | nil =>
      have he2 : e = a := by simpa using he
      subst he2
      simp [lastIdOr]
    | cons b t2 =>
      have hstep : lastIdOr (a :: b :: t2) c = lastIdOr (b :: t2) c := by
        unfold lastIdOr
        rw [List.getLast?_cons_cons]
      rcases List.mem_cons.1 he with he1 | he2
      · subst he1
        have hab : e.id < b.id := (List.pairwise_cons.1 hp).1 b (by simp)
        have hb : b.id ≤ lastIdOr (b :: t2) c :=
          ih (List.pairwise_cons.1 hp).2 b (by simp)
        rw [hstep]
        exact le_trans (le_of_lt hab) hb
      · rw [hstep]
        exact ih (List.pairwise_cons.1 hp).2 e he2

theorem lastIdOr_cases (xs : List EventRow) (c : Int) :
    lastIdOr xs c = c ∨ ∃ e ∈ xs, lastIdOr xs c = e.id := by
  unfold lastIdOr
  cases h : xs.getLast? with
  | none => exact Or.inl rfl
  | some e => exact Or.inr ⟨e, List.mem_of_mem_getLast? h, rfl⟩

/-- A poll with a set cursor is the query phase alone: no seeding and no
signal, the batch is the query result, and the cursor advances to the
last delivered id when the batch is non-empty and stays put otherwise. -/
theorem pollEvents_set (l : LiteBackend) (c : Int) (h : c ≠ notSet) :
    pollEvents l c true true
      = { rowid := lastIdOr (queryEventsAfter l c) c, batch := queryEventsAfter l c,
          pushed := true, signaled := false, err := false } := by
  unfold pollEvents
  rw [if_neg h]
  rfl

/-- A poll with an unset cursor seeds from the maximum event id, signals,
and then runs the query phase from the seeded position. -/
theorem pollEvents_unset (l : LiteBackend) :
    pollEvents l notSet true true
      = { rowid := lastIdOr (queryEventsAfter l (seedRowid l.events)) (seedRowid l.events),
          batch := queryEventsAfter l (seedRowid l.events),
          pushed := true, signaled := true, err := false } := by
  unfold pollEvents
  rw [if_pos rfl]
  rfl

theorem maxId_spec (evs : List EventRow) (m : Int) (h : maxId evs = some m) :
    ∃ e ∈ evs, m = e.id := by
  induction evs generalizing m with
  | nil => simp [maxId] at h
  | cons e rest ih =>
    unfold maxId at h
    cases h2 : maxId rest with
    | none =>
      rw [h2] at h
      exact ⟨e, by simp, by simpa using h.symm⟩
    | some m2 =>
      rw [h2] at h
      have hm : m = max e.id m2 := by simpa using h.symm
      rcases max_choice e.id m2 with hmax | hmax
      · exact ⟨e, by simp, by rw [hm, hmax]⟩
      · obtain ⟨e2, he2, hid⟩ := ih m2 h2
        exact ⟨e2, by simp [he2], by rw [hm, hmax, hid]⟩

theorem seedRowid_gt_notSet (evs : List EventRow) (hpos : ∀ e ∈ evs, 0 < e.id) :
    notSet < seedRowid evs := by
  unfold seedRowid
  cases h : maxId evs with
  | none => norm_num [notSet]
  | some m =>
    obtain ⟨e, he, hm⟩ := maxId_spec evs m h
    have := hpos e he
    show notSet < m - 1
    rw [notSet, hm]
    omega

theorem lastIdOr_ge (l : LiteBackend) (c : Int) :
    c ≤ lastIdOr (queryEventsAfter l c) c := by
  rcases lastIdOr_cases (queryEventsAfter l c) c with h | ⟨e, he, heq⟩
  · rw [h]
  · rw [heq]
    exact le_of_lt (mem_queryEventsAfter l c e he).2

/-- Invariant of a run of polls starting from a set cursor c: the cursor
chain starting at c is non-decreasing, the ids delivered across the run
are pairwise strictly increasing, and every delivered id exceeds c. -/
theorem pollSeq_inv (steps : List (List EventRow)) :
    ∀ (l : LiteBackend) (c : Int),
      List.Pairwise (fun a b => a.id < b.id) (l.events ++ steps.flatten) →
      (∀ e ∈ l.events ++ steps.flatten, 0 < e.id) →
      notSet < c →
      List.Chain' (· ≤ ·) (c :: (pollSeq l c steps).map Prod.fst)
      ∧ List.Pairwise (fun a b => a.id < b.id) ((pollSeq l c steps).flatMap Prod.snd)
      ∧ (∀ e ∈ (pollSeq l c steps).flatMap Prod.snd, c < e.id) := by
  induction steps with
  | nil =>
    intro l c _ _ _
    exact ⟨by simp [pollSeq], by simp [pollSeq], by simp [pollSeq]⟩
  | cons news rest ih =>
    intro l c hpw hpos hc
    have hassoc : l.events ++ (news :: rest).flatten
        = (l.events ++ news) ++ rest.flatten := by
      rw [List.flatten_cons, List.append_assoc]
    rw [hassoc] at hpw
    have hpos2 : ∀ e ∈ (l.events ++ news) ++ rest.flatten, 0 < e.id := by
      intro e he
      apply hpos
      rw [hassoc]
      exact he
    have hpwHead : List.Pairwise (fun a b => a.id < b.id) (l.events ++ news) :=
      List.Pairwise.sublist (List.sublist_append_left _ _) hpw
    have hcns : c ≠ notSet := ne_of_gt hc
    have hps := pollEvents_set { l with events := l.events ++ news } c hcns
    have hseq : pollSeq l c (news :: rest)
        = ((pollEvents { l with events := l.events ++ news } c true true).rowid,
           (pollEvents { l with events := l.events ++ news } c true true).batch)
          :: pollSeq { l with events := l.events ++ news }
              (pollEvents { l with events := l.events ++ news } c true true).rowid rest := rfl
    rw [hseq, hps]
    dsimp only
    have hbm := fun e he => mem_queryEventsAfter { l with events := l.events ++ news } c e he
    have hbpw := pairwise_queryEventsAfter { l with events := l.events ++ news } c hpwHead
    have hble := le_lastIdOr (queryEventsAfter { l with events := l.events ++ news } c) c hbpw
    have hcc2 := lastIdOr_ge { l with events := l.events ++ news } c
    have hc2 : notSet < lastIdOr (queryEventsAfter { l with events := l.events ++ news } c) c :=
      lt_of_lt_of_le hc hcc2
    obtain ⟨ihA, ihB, ihC⟩ := ih { l with events := l.events ++ news }
      (lastIdOr (queryEventsAfter { l with events := l.events ++ news } c) c) hpw hpos2 hc2
    refine ⟨?_, ?_, ?_⟩
    · simp only [List.map_cons]
      exact List.chain'_cons.2 ⟨hcc2, ihA⟩
    · simp only [List.flatMap_cons]
      refine List.pairwise_append.2 ⟨hbpw, ihB, ?_⟩
      intro e1 he1 e2 he2
      exact lt_of_le_of_lt (hble e1 he1) (ihC e2 he2)
    · intro e he
      simp only [List.flatMap_cons] at he
      rcases List.mem_append.1 he with h | h
      · exact (hbm e h).2
      · exact lt_of_le_of_lt hcc2 (ihC e h)

/-- C1: across any error-free sequence of poll invocations threaded as in
runPeriodicOperations over a well-formed event log, the cursor sequence
is non-decreasing and the event ids delivered to the fan-out buffer are
pairwise strictly increasing (so no id is delivered twice); moreover
every poll with a set cursor delivers only ids strictly greater than the
cursor, and advances the cursor to the id of the last delivered event
when the batch is non-empty, leaving it unchanged otherwise. -/
theorem poller_cursor_monotone (l : LiteBackend) (steps : List (List EventRow))
    (hwf : wfLog (l.events ++ steps.flatten)) :
    List.Chain' (· ≤ ·) ((pollSeq l notSet steps).map Prod.fst)
    ∧ List.Pairwise (fun a b => a.id < b.id) ((pollSeq l notSet steps).flatMap Prod.snd)
    ∧ ∀ (l2 : LiteBackend) (c : Int), c ≠ notSet →
        (∀ e ∈ (pollEvents l2 c true true).batch, c < e.id)
        ∧ (pollEvents l2 c true true).rowid
            = lastIdOr (pollEvents l2 c true true).batch c := by
  obtain ⟨hpw, hpos⟩ := hwf
  have hper : ∀ (l2 : LiteBackend) (c : Int), c ≠ notSet →
      (∀ e ∈ (pollEvents l2 c true true).batch, c < e.id)
      ∧ (pollEvents l2 c true true).rowid = lastIdOr (pollEvents l2 c true true).batch c := by
    intro l2 c hc
    rw [pollEvents_set l2 c hc]
    dsimp only
    exact ⟨fun e he => (mem_queryEventsAfter l2 c e he).2, rfl⟩
  cases steps with
  | nil => exact ⟨by simp [pollSeq], by simp [pollSeq], hper⟩
  | cons news rest =>
    have hassoc : l.events ++ (news :: rest).flatten
        = (l.events ++ news) ++ rest.flatten := by
      rw [List.flatten_cons, List.append_assoc]
    rw [hassoc] at hpw
    have hpos2 : ∀ e ∈ (l.events ++ news) ++ rest.flatten, 0 < e.id := by
      intro e he
      apply hpos
      rw [hassoc]
      exact he
    have hpwHead : List.Pairwise (fun a b => a.id < b.id) (l.events ++ news) :=
      List.Pairwise.sublist (List.sublist_append_left _ _) hpw
    have hposHead : ∀ e ∈ l.events ++ news, 0 < e.id :=
      fun e he => hpos2 e (List.mem_append_left _ he)
    have hs : notSet < seedRowid (l.events ++ news) := seedRowid_gt_notSet _ hposHead
    have hpu := pollEvents_unset { l with events := l.events ++ news }
    have hseq : pollSeq l notSet (news :: rest)
        = ((pollEvents { l with events := l.events ++ news } notSet true true).rowid,
           (pollEvents { l with events := l.events ++ news } notSet true true).batch)
          :: pollSeq { l with events := l.events ++ news }
              (pollEvents { l with events := l.events ++ news } notSet true true).rowid rest := rfl
    rw [hseq, hpu]
    dsimp only
    have hbpw := pairwise_queryEventsAfter { l with events := l.events ++ news }
      (seedRowid (l.events ++ news)) hpwHead
    have hble := le_lastIdOr
      (queryEventsAfter { l with events := l.events ++ news } (seedRowid (l.events ++ news)))
      (seedRowid (l.events ++ news)) hbpw
    have hcc1 := lastIdOr_ge { l with events := l.events ++ news } (seedRowid (l.events ++ news))
    have hc1 : notSet < lastIdOr
        (queryEventsAfter { l with events := l.events ++ news } (seedRowid (l.events ++ news)))
        (seedRowid (l.events ++ news)) :=
      lt_of_lt_of_le hs hcc1
    obtain ⟨invA, invB, invC⟩ := pollSeq_inv rest { l with events := l.events ++ news }
      (lastIdOr
        (queryEventsAfter { l with events := l.events ++ news } (seedRowid (l.events ++ news)))
        (seedRowid (l.events ++ news))) hpw hpos2 hc1
    refine ⟨?_, ?_, hper⟩
    · simp only [List.map_cons]
      exact invA
    · simp only [List.flatMap_cons]
      refine List.pairwise_append.2 ⟨hbpw, invB, ?_⟩
      intro e1 he1 e2 he2
      exact lt_of_le_of_lt (hble e1 he1) (invC e2 he2)

/-- A one-event backend used to witness the cursor-monotonicity claim. -/
def pollWitnessBackend : LiteBackend :=
  { kv := [], events := [⟨1, EventType.put, [], [], 0, none, 0⟩],
    mirror := false, bufferSize := 4, eventsOff := false }

/-- Two ticks of appended events used to witness the
cursor-monotonicity claim. -/
def pollWitnessSteps : List (List EventRow) :=
  [[⟨2, EventType.put, [], [], 0, none, 0⟩], []]

theorem poller_cursor_monotone_witness :
    List.Chain' (· ≤ ·) ((pollSeq pollWitnessBackend notSet pollWitnessSteps).map Prod.fst)
    ∧ List.Pairwise (fun a b => a.id < b.id)
      ((pollSeq pollWitnessBackend notSet pollWitnessSteps).flatMap Prod.snd) := by
  have h := poller_cursor_monotone pollWitnessBackend pollWitnessSteps (by decide)
  exact ⟨h.1, h.2.1⟩

end Teleport
